import Mathlib

/-!
Shallow embedding of the keeta-cli wallet keystore, account resolver and
derivation-search logic (src/lib/keeta.ts alias src/unnamed/part_003, and
src/commands/wallet.ts), together with proofs of the specification claims.

External cryptographic primitives (Account.fromSeed,
Account.fromECDSASECP256K1PrivateKey) are modelled as an abstract record of
pure fallible functions; the network facade is modelled as an abstract probe
function.  JavaScript truthiness on optional string fields is modelled
explicitly (an absent field and the empty string are both falsy).
-/

namespace KeetaCLI

/-- The closed set of key algorithms of the wallet record
(field algo of the Wallet type in src/lib/keeta.ts). -/
inductive Algo
  | ed25519
  | secp256k1
  | secp256r1
deriving DecidableEq

/-- The AccountKeyAlgorithm constants of the external library. -/
inductive KAlgo
  | ED25519
  | ECDSA_SECP256K1
  | ECDSA_SECP256R1
deriving DecidableEq

/-- Errors raised by the external key-derivation primitives. -/
inductive KErr
  | invalidKey
  | invalidSeed
deriving DecidableEq

/-- The persisted wallet record, mirroring the TypeScript type Wallet in
src/lib/keeta.ts: every field is optional. -/
structure Wallet where
  seed : Option String
  index : Option Nat
  algo : Option Algo
  privateKeySecp256k1 : Option String
  address : Option String
deriving DecidableEq

/-- JavaScript truthiness of an optional string field: undefined and the
empty string are falsy, every other string is truthy. -/
def strTruthy : Option String → Bool
  | none => false
  | some s => s != ""

/-- The function algoConst of src/lib/keeta.ts restricted to the closed
algorithm set (on the three valid names it returns the matching library
constant; the throwing branch is unreachable for typed records). -/
def algoConst : Algo → KAlgo
  | .ed25519 => .ED25519
  | .secp256k1 => .ECDSA_SECP256K1
  | .secp256r1 => .ECDSA_SECP256R1

/-- The external derivation primitives used by accountFromWallet, treated as
opaque pure functions into an arbitrary account type.  fromSeed receives the
possibly-absent seed exactly as the JavaScript call passes wallet.seed
through. -/
structure Prims (α : Type) where
  fromECDSA : String → Except KErr α
  fromSeed : Option String → Nat → KAlgo → Except KErr α

/-- The function accountFromWallet of src/lib/keeta.ts:
if (wallet.privateKeySecp256k1) take the ECDSA branch with that key, else
Account.fromSeed(wallet.seed, wallet.index or 0, algoConst(wallet.algo or
ed25519)). -/
def accountFromWallet {α : Type} (prims : Prims α) (w : Wallet) : Except KErr α :=
  if strTruthy w.privateKeySecp256k1 then
    prims.fromECDSA (w.privateKeySecp256k1.getD "")
  else
    prims.fromSeed w.seed (w.index.getD 0) (algoConst (w.algo.getD .ed25519))

/-- The check of the wallet:import --priv branch (src/commands/wallet.ts
lines 144-150): importing a raw private key with an algorithm other than
secp256k1 exits with code 1 before any wallet is constructed. -/
def importPrivCheck (algo : String) : Except Nat Unit :=
  if algo != "secp256k1" then .error 1 else .ok ()

/-- JSON values as stored in the keystore file.  The file content is
modelled at the level of the parsed JSON tree (JSON.stringify and JSON.parse
are mutually inverse on this tree, so the tree is the faithful shallow model
of the UTF-8 file body written by saveWallet). -/
inductive Json
  | str (s : String)
  | num (n : Nat)
  | obj (fields : List (String × Json))

/-- String form of an algorithm, as serialised into the keystore file. -/
def algoToString : Algo → String
  | .ed25519 => "ed25519"
  | .secp256k1 => "secp256k1"
  | .secp256r1 => "secp256r1"

/-- Reading an algorithm string back from the keystore file into the closed
union type of the Wallet record. -/
def algoOfString (s : String) : Option Algo :=
  if s = "ed25519" then some .ed25519
  else if s = "secp256k1" then some .secp256k1
  else if s = "secp256r1" then some .secp256r1
  else none

/-- JSON.stringify of a wallet record: fields that are undefined are omitted
from the serialised object, present fields appear under their stable key
names seed, index, algo, privateKeySecp256k1, address. -/
def jsonOfWallet (w : Wallet) : Json :=
  .obj
    ((match w.seed with | some s => [("seed", Json.str s)] | none => []) ++
     (match w.index with | some n => [("index", Json.num n)] | none => []) ++
     (match w.algo with | some a => [("algo", Json.str (algoToString a))] | none => []) ++
     (match w.privateKeySecp256k1 with
      | some k => [("privateKeySecp256k1", Json.str k)]
      | none => []) ++
     (match w.address with | some s => [("address", Json.str s)] | none => []))

/-- Field access on a parsed JSON document (a missing key reads as
undefined). -/
def jget (j : Json) (k : String) : Option Json :=
  match j with
  | .obj fs => fs.lookup k
  | _ => none

/-- The wallet record obtained by reading the stable field names off a
parsed keystore document, as the TypeScript code does by structural typing
after JSON.parse. -/
def walletOfJson (j : Json) : Wallet where
  seed := match jget j "seed" with | some (.str s) => some s | _ => none
  index := match jget j "index" with | some (.num n) => some n | _ => none
  algo := match jget j "algo" with | some (.str s) => algoOfString s | _ => none
  privateKeySecp256k1 :=
    match jget j "privateKeySecp256k1" with | some (.str s) => some s | _ => none
  address := match jget j "address" with | some (.str s) => some s | _ => none

/-- The file system visible to the keystore: a map from paths to the parsed
content of the file stored there, none where no file exists. -/
def Store : Type := String → Option Json

/-- The function defaultKeyfile of src/lib/keeta.ts:
path.join(homedir(), ".keeta", "wallet.json"). -/
def defaultKeyfile (home : String) : String :=
  home ++ "/.keeta/wallet.json"

/-- Resolution of the optional file argument of saveWallet and loadWallet:
the JavaScript expression file or-else defaultKeyfile(), under truthiness
(an empty-string path also falls back to the default). -/
def resolveFile (home : String) (fileOpt : Option String) : String :=
  match fileOpt with
  | some f => if f != "" then f else defaultKeyfile home
  | none => defaultKeyfile home

/-- The function saveWallet of src/lib/keeta.ts: resolve the path, ensure
the directory (a no-op in the store model) and write the serialised record,
replacing any prior content at that path. -/
def saveWallet (w : Wallet) (fileOpt : Option String) (home : String) (store : Store) : Store :=
  fun p => if p = resolveFile home fileOpt then some (jsonOfWallet w) else store p

/-- The function loadWallet of src/lib/keeta.ts: resolve the path, return
null when no file exists there, otherwise JSON.parse the content. -/
def loadWallet (fileOpt : Option String) (home : String) (store : Store) : Option Wallet :=
  (store (resolveFile home fileOpt)).map walletOfJson

/-- The helper getKeyfile of src/commands/wallet.ts:
opts.keyfile or-else defaultKeyfile(), under truthiness. -/
def getKeyfile (home : String) (optKeyfile : Option String) : String :=
  match optKeyfile with
  | some k => if k != "" then k else defaultKeyfile home
  | none => defaultKeyfile home

/-- The wallet load performed by every wallet command except scan-balances:
loadWallet(getKeyfile(opts)), honouring the per-invocation override. -/
def commandLoadedWallet (home : String) (optKeyfile : Option String) (store : Store) :
    Option Wallet :=
  loadWallet (some (getKeyfile home optKeyfile)) home store

/-- The wallet load performed by wallet:scan-balances (src/commands/wallet.ts
line 263): loadWallet(defaultKeyfile()), which passes the fixed default path
and never consults opts.keyfile. -/
def scanLoadedWallet (home : String) (optKeyfile : Option String) (store : Store) :
    Option Wallet :=
  loadWallet (some (defaultKeyfile home)) home store

/-- The seed-resolution step of wallet:scan-balances when --mnemonic is
absent (src/commands/wallet.ts lines 263-274): exit 1 when no wallet was
loaded, when neither seed nor private key is truthy, or when the wallet is
private-key based; otherwise yield the seed hex and the default algorithm
string wallet.algo or-else ed25519. -/
def scanSeedStep (wo : Option Wallet) : Except Nat (String × String) :=
  match wo with
  | none => .error 1
  | some w =>
    if !strTruthy w.seed && !strTruthy w.privateKeySecp256k1 then .error 1
    else if strTruthy w.privateKeySecp256k1 then .error 1
    else .ok (w.seed.getD "", algoToString (w.algo.getD .ed25519))

/-- Result of one auto-detect probe for an (algorithm, index) pair:
the outer catch of the loop body (derivation or client construction threw),
the inner catch (client.allBalances threw, a network error), or a successful
balance query giving the token-to-balance entries of Object.entries. -/
inductive ProbeResult
  | deriveError
  | netError
  | ok (balances : List (String × Int))
deriving DecidableEq

/-- The summed total balance of a balance response, as computed by the
totalBalance accumulation loop of the auto-detect body (BigInt addition over
every entry). -/
def totalOf (bs : List (String × Int)) : Int :=
  (bs.map Prod.snd).foldl (· + ·) 0

/-- The mutable state of the auto-detect loop: foundWallet (reduced to its
defining (algorithm, index) pair, the seed being fixed across the loop) and
maxBalance. -/
structure DetectState where
  foundWallet : Option (Algo × Nat)
  maxBalance : Int
deriving DecidableEq

/-- One iteration of the auto-detect inner loop (src/commands/wallet.ts
lines 79-117): probe the pair; on either error record nothing and continue;
on success, if the account holds at least one token and its total strictly
exceeds the running maximum, make this pair the candidate. -/
def detectStep (probe : Algo × Nat → ProbeResult) (st : DetectState) (p : Algo × Nat) :
    DetectState :=
  match probe p with
  | .ok bs =>
    if bs.length > 0 then
      if totalOf bs > st.maxBalance then ⟨some p, totalOf bs⟩ else st
    else st
  | _ => st

/-- The fixed algorithm list of the auto-detect search
(src/commands/wallet.ts line 70). -/
def algorithms : List Algo := [.ed25519, .secp256k1, .secp256r1]

/-- The fixed index list of the auto-detect search
(src/commands/wallet.ts line 71). -/
def indices : List Nat := [0, 1, 2, 3, 4, 5]

/-- The probe order of the nested auto-detect loops: outer loop over
algorithms, inner loop over indices. -/
def searchPairs : List (Algo × Nat) :=
  algorithms.flatMap fun a => indices.map fun i => (a, i)

/-- The whole auto-detect search (src/commands/wallet.ts lines 70-120):
fold the step over every pair in loop order, starting from no candidate and
maxBalance zero. -/
def autoDetect (probe : Algo × Nat → ProbeResult) : DetectState :=
  searchPairs.foldl (detectStep probe) ⟨none, 0⟩

/-- The eligibility of a probed pair to become the candidate: a successful
balance query with at least one token entry, together with its summed total
(the balanceCount greater than zero gate of line 100). -/
def elig (probe : Algo × Nat → ProbeResult) (p : Algo × Nat) : Option Int :=
  match probe p with
  | .ok bs => if bs.length > 0 then some (totalOf bs) else none
  | _ => none

/-- The running maximum of the eligible totals of a pair list, seeded with a
starting value.  This is the specification-side reading of the maxBalance
accumulator. -/
def runMax (probe : Algo × Nat → ProbeResult) (l : List (Algo × Nat)) (x : Int) : Int :=
  l.foldl
    (fun m p =>
      match elig probe p with
      | some t => max m t
      | none => m)
    x

/-- The first pair of a list whose eligible total equals a given value.
This is the specification-side reading of the first-encountered-wins
tie-break. -/
def firstWith (probe : Algo × Nat → ProbeResult) (M : Int) :
    List (Algo × Nat) → Option (Algo × Nat)
  | [] => none
  | p :: r => if elig probe p = some M then some p else firstWith probe M r

/-- Modelled from the spec (tie-break and ranking rule of section 4.3):
the winner is the first pair, in algorithm-major index-minor order, whose
eligible total attains the maximum of all eligible totals, provided that
maximum is strictly positive; otherwise NotFound. -/
def specSelect (probe : Algo × Nat → ProbeResult) : Option (Algo × Nat) :=
  if 0 < runMax probe searchPairs 0 then
    firstWith probe (runMax probe searchPairs 0) searchPairs
  else none

/-- The outcome of the auto-detect branch of wallet:import
(src/commands/wallet.ts lines 122-132): a selected pair, or exit code 1 when
no wallet with balance was found. -/
def autoDetectOutcome (probe : Algo × Nat → ProbeResult) : Except Nat (Algo × Nat) :=
  match (autoDetect probe).foundWallet with
  | none => .error 1
  | some p => .ok p

/-- The auto-detect import action as a state transition on the keystore
(src/commands/wallet.ts lines 121-156): on NotFound exit 1 without touching
the store; on success build the found wallet record from the mnemonic seed
and the winning pair and save it at the resolved keyfile path. -/
def importAutoDetect (probe : Algo × Nat → ProbeResult) (mnemonicSeed : String)
    (fileOpt : Option String) (home : String) (store : Store) :
    Except Nat Unit × Store :=
  match (autoDetect probe).foundWallet with
  | none => (.error 1, store)
  | some pr =>
    let w : Wallet :=
      { seed := some mnemonicSeed, index := some pr.2, algo := some pr.1,
        privateKeySecp256k1 := none, address := none }
    (.ok (), saveWallet w fileOpt home store)

/-- JavaScript String.prototype.split on a comma, over the character list
(the empty input yields one empty field, a separator at either end yields an
empty field there). -/
def splitCommaAux : List Char → List Char → List (List Char)
  | [], acc => [acc.reverse]
  | c :: rest, acc =>
    if c = ',' then acc.reverse :: splitCommaAux rest []
    else splitCommaAux rest (c :: acc)

/-- Comma split of a string, as opts.algos.split(",") computes it. -/
def splitComma (s : String) : List String :=
  (splitCommaAux s.toList []).map fun cs => String.mk cs

/-- Whitespace test of String.prototype.trim for the characters that occur
in CLI arguments. -/
def isSpaceChar (c : Char) : Bool :=
  c = ' ' || c = '\t' || c = '\n' || c = '\r'

/-- String.prototype.trim over the character list. -/
def trimStr (s : String) : String :=
  String.mk (((s.toList.dropWhile isSpaceChar).reverse.dropWhile isSpaceChar).reverse)

/-- String.prototype.toLowerCase over the character list. -/
def lowerStr (s : String) : String :=
  String.mk (s.toList.map Char.toLower)

/-- The algorithm-list parse of wallet:scan-balances (src/commands/wallet.ts
line 286): split on commas, trim and lower-case each field, and drop falsy
(empty) fields. -/
def parseAlgosList (s : String) : List String :=
  ((splitComma s).map fun x => lowerStr (trimStr x)).filter fun x => x != ""

/-- The closed set of valid algorithm names of the scan validation loop. -/
def validAlgoStrings : List String := ["ed25519", "secp256k1", "secp256r1"]

/-- The options of wallet:scan-balances that the scan pipeline consumes,
after parseInt of the range bounds. -/
structure ScanOpts where
  algosOpt : String
  start : Int
  tEnd : Int
  verbose : Bool

/-- Result of one scan probe (client.getAccountInfo for a derived account):
a thrown error, or the balance entries of the response. -/
inductive ScanProbe
  | err
  | ok (balances : List (String × Int))

/-- The ascending inclusive index range of the scan loop. -/
def indicesFromTo (s e : Int) : List Int :=
  (List.range (e - s + 1).toNat).map fun i => s + i

/-- The wallet:scan-balances pipeline from range validation onwards
(src/commands/wallet.ts lines 276-342): exit 1 on a bad range; parse the
algorithm list, falling back to the single default algorithm when the option
is empty; exit 1 when any requested algorithm is outside the closed set;
then probe every (algorithm, index) pair in caller order with ascending
indices, skipping pairs whose probe throws and emitting a found entry when
the pair has tokens or verbose is set.  The first component of the result is
the list of pairs actually probed on the network, the second the emitted
entries. -/
def scanBalancesRun (defaultAlgo : String) (o : ScanOpts)
    (probe : String → Int → ScanProbe) :
    Except Nat (List (String × Int) × List (String × Int × List (String × Int))) :=
  if o.start < 0 ∨ o.tEnd < o.start then .error 1
  else
    let algos := if o.algosOpt != "" then parseAlgosList o.algosOpt else [defaultAlgo]
    if algos.any (fun a => !validAlgoStrings.contains a) then .error 1
    else
      let pairs := algos.flatMap fun a => (indicesFromTo o.start o.tEnd).map fun i => (a, i)
      .ok (pairs,
        pairs.filterMap fun p =>
          match probe p.1 p.2 with
          | .err => none
          | .ok bs => if bs.length > 0 || o.verbose then some (p.1, p.2, bs) else none)

/-- Concrete pure primitives over string accounts, used to evaluate the
resolver at specific inputs. -/
def prims0 : Prims String :=
  ⟨fun k => .ok ("E" ++ k), fun s i _ => .ok ((s.getD "") ++ toString i)⟩

/-- Primitives that expose which derivation path ran: the ECDSA branch
always answers E, the seed branch echoes the seed. -/
def prims1 : Prims String :=
  ⟨fun _ => .ok "E", fun s _ _ => .ok (s.getD "noseed")⟩

/-- Primitives accepting exactly one well-formed private key. -/
def prims2 : Prims String :=
  ⟨fun k => if k = "deadbeef" then .ok "E" else .error .invalidKey,
   fun _ _ _ => .error .invalidSeed⟩

/-- Primitives rejecting every private key as malformed. -/
def prims3 : Prims String :=
  ⟨fun _ => .error .invalidKey, fun _ _ _ => .error .invalidSeed⟩

/-- A seed wallet carrying a cached address. -/
def w1ex : Wallet := ⟨some "abcd", some 1, some .secp256k1, none, some "addrX"⟩

/-- The same derivation fields as w1ex without the cached address. -/
def w2ex : Wallet := ⟨some "abcd", some 1, some .secp256k1, none, none⟩

/-- A record holding both a seed and an empty-string private key. -/
def wA : Wallet := ⟨some "aa", none, none, some "", none⟩

/-- Like wA with a different seed and the identical private-key field. -/
def wB : Wallet := ⟨some "bb", none, none, some "", none⟩

/-- A private-key record whose algorithm field says ed25519. -/
def wC : Wallet := ⟨none, none, some .ed25519, some "deadbeef", none⟩

/-- A private-key record with a malformed key. -/
def wD : Wallet := ⟨none, none, none, some "zz", none⟩

/-- A record with a non-empty private key next to full seed data. -/
def wPrec : Wallet := ⟨some "abcd", some 3, some .ed25519, some "beef", none⟩

/-- A probe under which every pair raises a network error. -/
def probeAllErr : Algo × Nat → ProbeResult := fun _ => .netError

/-- A probe under which only ed25519 index 2 succeeds, with a positive
balance; every other pair raises a network error. -/
def probe6 : Algo × Nat → ProbeResult :=
  fun q => if q = (.ed25519, 2) then .ok [("TOK", 5)] else .netError

/-- A file system with no files. -/
def emptyStore : Store := fun _ => none

/-- A scan probe under which every query throws. -/
def scanProbeErr : String → Int → ScanProbe := fun _ _ => .err

/-- Scan options whose algos option parses to the empty algorithm list. -/
def emptyAlgoOpts : ScanOpts := ⟨",", 0, 10, false⟩

/-- A seed wallet used for keyfile-override scenarios. -/
def wSeedEx : Wallet := ⟨some "abcd", some 0, some .ed25519, none, none⟩

/-- A file system holding exactly one keystore file, at the override path
of the scenario, containing wSeedEx. -/
def store9 : Store :=
  fun p => if p = "/alt/wallet.json" then some (jsonOfWallet wSeedEx) else none

/-- Helper: with a truthy privateKeySecp256k1 the resolver takes the ECDSA
branch with exactly that key. -/
theorem accountFromWallet_priv_branch {α : Type} (prims : Prims α) (w : Wallet)
    (k : String) (hk : w.privateKeySecp256k1 = some k) (hne : k ≠ "") :
    accountFromWallet prims w = prims.fromECDSA k := by
  have ht : strTruthy (some k) = true := by simp [strTruthy, hne]
  simp [accountFromWallet, hk, ht]

/-- Helper: with a falsy privateKeySecp256k1 the resolver takes the seed
branch. -/
theorem accountFromWallet_seed_branch {α : Type} (prims : Prims α) (w : Wallet)
    (hf : strTruthy w.privateKeySecp256k1 = false) :
    accountFromWallet prims w =
      prims.fromSeed w.seed (w.index.getD 0) (algoConst (w.algo.getD .ed25519)) := by
  simp [accountFromWallet, hf]

/-- C1: accountFromWallet is a pure function of the derivation fields seed,
index, algo and privateKeySecp256k1 alone, the external primitives being
fixed; two records agreeing on those fields resolve to the identical
account, byte for byte. -/
theorem accountFromWallet_deterministic {α : Type} (prims : Prims α)
    (w1 w2 : Wallet) (hs : w1.seed = w2.seed) (hi : w1.index = w2.index)
    (ha : w1.algo = w2.algo) (hk : w1.privateKeySecp256k1 = w2.privateKeySecp256k1) :
    accountFromWallet prims w1 = accountFromWallet prims w2 := by
  simp only [accountFromWallet, hs, hi, ha, hk]

/-- Witness for C1: two concrete records with identical derivation fields
but different cached addresses resolve identically under concrete
primitives. -/
theorem accountFromWallet_deterministic_witness :
    accountFromWallet prims0 w1ex = accountFromWallet prims0 w2ex :=
  accountFromWallet_deterministic prims0 w1ex w2ex rfl rfl rfl rfl

/-- Counterexample for C2: two records with the identical present
privateKeySecp256k1 field (the empty string) and different seeds resolve to
different accounts, so a record with both fields present does not always
resolve from rawPrivateKey alone. -/
theorem priv_precedence_cex :
    wA.privateKeySecp256k1 = wB.privateKeySecp256k1 ∧
    (wA.privateKeySecp256k1).isSome = true ∧
    (wA.seed).isSome = true ∧
    accountFromWallet prims1 wA ≠ accountFromWallet prims1 wB := by
  refine ⟨rfl, rfl, rfl, ?_⟩
  intro h
  simp [accountFromWallet, prims1, wA, wB, strTruthy] at h

/-- C2 (amended): a record whose privateKeySecp256k1 is present and
non-empty resolves through the ECDSA transform on that key alone, ignoring
seed, index and algorithm; a present but empty-string key is falsy and the
record resolves through the seed branch instead. -/
theorem accountFromWallet_priv_precedence {α : Type} (prims : Prims α) :
    (∀ (w : Wallet) (k : String), w.privateKeySecp256k1 = some k → k ≠ "" →
      accountFromWallet prims w = prims.fromECDSA k) ∧
    (∀ w : Wallet, w.privateKeySecp256k1 = some "" →
      accountFromWallet prims w =
        prims.fromSeed w.seed (w.index.getD 0) (algoConst (w.algo.getD .ed25519))) := by
  constructor
  · intro w k hk hne
    exact accountFromWallet_priv_branch prims w k hk hne
  · intro w hk
    refine accountFromWallet_seed_branch prims w ?_
    rw [hk]; simp [strTruthy]

/-- Witness for C2: both branches of the amended statement evaluated at
concrete records. -/
theorem accountFromWallet_priv_precedence_witness :
    accountFromWallet prims0 wPrec = prims0.fromECDSA "beef" ∧
    accountFromWallet prims1 wA =
      prims1.fromSeed wA.seed (wA.index.getD 0) (algoConst (wA.algo.getD .ed25519)) :=
  ⟨(accountFromWallet_priv_precedence prims0).1 wPrec "beef" rfl (by decide),
   (accountFromWallet_priv_precedence prims1).2 wA rfl⟩

/-- Counterexample for C3: a record with a well-formed private key and
algorithm field ed25519 resolves successfully, although the claim requires
an InvalidKeyError whenever the algorithm is not secp256k1. -/
theorem priv_algo_cex :
    wC.algo = some .ed25519 ∧
    wC.algo ≠ some .secp256k1 ∧
    (wC.privateKeySecp256k1).isSome = true ∧
    accountFromWallet prims2 wC = .ok "E" := by
  refine ⟨rfl, by decide, rfl, rfl⟩

/-- C3 (amended): with a truthy rawPrivateKey the resolver always applies
the secp256k1 private-key transform to it, so it fails with InvalidKeyError
exactly when that transform rejects the key as malformed; the record
algorithm field is never consulted there.  The algorithm-not-secp256k1
restriction is enforced only by the wallet:import --priv check, which exits
with code 1. -/
theorem accountFromWallet_invalidKey :
    (∀ {α : Type} (prims : Prims α) (w : Wallet) (k : String),
      w.privateKeySecp256k1 = some k → k ≠ "" →
      prims.fromECDSA k = .error .invalidKey →
      accountFromWallet prims w = .error .invalidKey) ∧
    (∀ a : String, a ≠ "secp256k1" → importPrivCheck a = .error 1) := by
  constructor
  · intro α prims w k hk hne hmal
    rw [accountFromWallet_priv_branch prims w k hk hne, hmal]
  · intro a ha
    simp [importPrivCheck, ha]

/-- Witness for C3: concrete primitives that reject every key make the
resolver fail with InvalidKeyError on a concrete record, and the import
check rejects a concrete non-secp256k1 algorithm. -/
theorem accountFromWallet_invalidKey_witness :
    accountFromWallet prims3 wD = .error .invalidKey ∧
    importPrivCheck "ed25519" = .error 1 :=
  ⟨accountFromWallet_invalidKey.1 prims3 wD "zz" rfl (by decide) rfl,
   accountFromWallet_invalidKey.2 "ed25519" (by decide)⟩

/-- Helper: deserialising a serialised wallet record restores it field for
field. -/
theorem walletOfJson_jsonOfWallet (w : Wallet) : walletOfJson (jsonOfWallet w) = w := by
  rcases w with ⟨s, i, a, k, ad⟩
  rcases a with _ | a <;> cases s <;> cases i <;> cases k <;> cases ad <;>
    first
    | rfl
    | (cases a <;> rfl)

/-- C7: loading the keystore right after saving a record to it returns the
record unchanged, absent optional fields staying absent, for every record,
path argument and prior file-system state. -/
theorem loadWallet_saveWallet_roundTrip (w : Wallet) (fileOpt : Option String)
    (home : String) (store : Store) :
    loadWallet fileOpt home (saveWallet w fileOpt home store) = some w := by
  simp [loadWallet, saveWallet, walletOfJson_jsonOfWallet]

/-- Helper: a pair that is not eligible leaves the loop state unchanged. -/
theorem detectStep_elig_none (probe : Algo × Nat → ProbeResult) (st : DetectState)
    (p : Algo × Nat) (h : elig probe p = none) : detectStep probe st p = st := by
  cases hp : probe p with
  | deriveError => simp [detectStep, hp]
  | netError => simp [detectStep, hp]
  | ok bs =>
    by_cases hb : bs.length > 0
    · rw [elig, hp] at h; simp [hb] at h
    · simp [detectStep, hp, hb]

/-- Helper: an eligible pair updates the loop state exactly when its total
strictly exceeds the running maximum. -/
theorem detectStep_elig_some (probe : Algo × Nat → ProbeResult) (st : DetectState)
    (p : Algo × Nat) (t : Int) (h : elig probe p = some t) :
    detectStep probe st p = if st.maxBalance < t then ⟨some p, t⟩ else st := by
  cases hp : probe p with
  | deriveError => rw [elig, hp] at h; simp at h
  | netError => rw [elig, hp] at h; simp at h
  | ok bs =>
    rw [elig, hp] at h
    dsimp only at h
    by_cases hb : bs.length > 0
    · rw [if_pos hb] at h
      injection h with h
      subst h
      simp [detectStep, hp, hb]
    · rw [if_neg hb] at h; simp at h

/-- Helper: the running maximum dominates its seed. -/
theorem le_runMax (probe : Algo × Nat → ProbeResult) (l : List (Algo × Nat)) :
    ∀ x : Int, x ≤ runMax probe l x := by
  induction l with
  | nil => intro x; exact le_refl x
  | cons p r ih =>
    intro x
    cases h : elig probe p with
    | none => simpa [runMax, List.foldl_cons, h] using ih x
    | some t =>
      have h1 : runMax probe (p :: r) x = runMax probe r (max x t) := by
        simp [runMax, List.foldl_cons, h]
      rw [h1]
      exact le_trans (le_max_left x t) (ih (max x t))

/-- Helper: the running maximum is bounded by any bound of the seed and of
every eligible total. -/
theorem runMax_le_of (probe : Algo × Nat → ProbeResult) (t : Int) :
    ∀ (l : List (Algo × Nat)) (x : Int), x ≤ t →
      (∀ p ∈ l, ∀ u : Int, elig probe p = some u → u ≤ t) →
      runMax probe l x ≤ t := by
  intro l
  induction l with
  | nil => intro x hx _; exact hx
  | cons p r ih =>
    intro x hx hall
    cases h : elig probe p with
    | none =>
      have := ih x hx fun q hq => hall q (List.mem_cons_of_mem p hq)
      simpa [runMax, List.foldl_cons, h] using this
    | some u =>
      have hu : u ≤ t := hall p (List.mem_cons_self p r) u h
      have := ih (max x u) (max_le hx hu) fun q hq => hall q (List.mem_cons_of_mem p hq)
      simpa [runMax, List.foldl_cons, h] using this

/-- Helper: an eligible total of a member bounds the running maximum from
below. -/
theorem le_runMax_of_mem (probe : Algo × Nat → ProbeResult) (t : Int) :
    ∀ (l : List (Algo × Nat)) (x : Int) (p : Algo × Nat), p ∈ l →
      elig probe p = some t → t ≤ runMax probe l x := by
  intro l
  induction l with
  | nil => intro x p hp _; cases hp
  | cons q r ih =>
    intro x p hp he
    rcases List.mem_cons.mp hp with hqp | hr
    · subst hqp
      have h1 : runMax probe (p :: r) x = runMax probe r (max x t) := by
        simp [runMax, List.foldl_cons, he]
      rw [h1]
      exact le_trans (le_max_right x t) (le_runMax probe r (max x t))
    · cases hq : elig probe q with
      | none =>
        have := ih x p hr he
        simpa [runMax, List.foldl_cons, hq] using this
      | some u =>
        have := ih (max x u) p hr he
        simpa [runMax, List.foldl_cons, hq] using this

/-- Helper: firstWith only returns pairs whose eligible total is the sought
value. -/
theorem firstWith_eq_some (probe : Algo × Nat → ProbeResult) (M : Int) :
    ∀ (l : List (Algo × Nat)) (p : Algo × Nat),
      firstWith probe M l = some p → elig probe p = some M := by
  intro l
  induction l with
  | nil => intro p h; cases h
  | cons q r ih =>
    intro p h
    rw [firstWith] at h
    by_cases hq : elig probe q = some M
    · rw [if_pos hq] at h
      injection h with h
      subst h
      exact hq
    · rw [if_neg hq] at h
      exact ih p h

/-- Helper: when a single member is eligible with the sought total and
every other member is ineligible, firstWith returns that member. -/
theorem firstWith_unique (probe : Algo × Nat → ProbeResult) (t : Int) :
    ∀ (l : List (Algo × Nat)) (p : Algo × Nat), p ∈ l → elig probe p = some t →
      (∀ q ∈ l, q ≠ p → elig probe q = none) → firstWith probe t l = some p := by
  intro l
  induction l with
  | nil => intro p hp _ _; cases hp
  | cons q r ih =>
    intro p hp he hothers
    by_cases hqp : q = p
    · subst hqp
      rw [firstWith, if_pos he]
    · have hq : elig probe q = none :=
        hothers q (List.mem_cons_self q r) hqp
      have hp' : p ∈ r := by
        rcases List.mem_cons.mp hp with h | h
        · exact absurd h.symm hqp
        · exact h
      rw [firstWith]
      rw [if_neg (by simp [hq])]
      exact ih p hp' he fun q' hq' => hothers q' (List.mem_cons_of_mem q hq')

/-- Helper: characterisation of the auto-detect fold.  Starting from any
state with non-negative running maximum, the fold ends with maxBalance equal
to the running maximum of the eligible totals and with foundWallet equal to
the first pair attaining it when it strictly improved, the starting
candidate otherwise. -/
theorem detect_foldl_char (probe : Algo × Nat → ProbeResult) :
    ∀ (l : List (Algo × Nat)) (st : DetectState), 0 ≤ st.maxBalance →
      (l.foldl (detectStep probe) st).maxBalance = runMax probe l st.maxBalance ∧
      (l.foldl (detectStep probe) st).foundWallet =
        (if st.maxBalance < runMax probe l st.maxBalance
         then firstWith probe (runMax probe l st.maxBalance) l
         else st.foundWallet) := by
  intro l
  induction l with
  | nil =>
    intro st _
    refine ⟨rfl, ?_⟩
    simp [runMax]
  | cons p r ih =>
    intro st hst
    cases he : elig probe p with
    | none =>
      rw [List.foldl_cons, detectStep_elig_none probe st p he]
      have hm : runMax probe (p :: r) st.maxBalance = runMax probe r st.maxBalance := by
        simp [runMax, List.foldl_cons, he]
      have hr := ih st hst
      rw [hm]
      refine ⟨hr.1, ?_⟩
      rw [hr.2]
      by_cases hc : st.maxBalance < runMax probe r st.maxBalance
      · rw [if_pos hc, if_pos hc, firstWith, if_neg (by simp [he])]
      · rw [if_neg hc, if_neg hc]
    | some t =>
      rw [List.foldl_cons, detectStep_elig_some probe st p t he]
      have hm : runMax probe (p :: r) st.maxBalance =
          runMax probe r (max st.maxBalance t) := by
        simp [runMax, List.foldl_cons, he]
      by_cases h1 : st.maxBalance < t
      · rw [if_pos h1]
        have hmax : max st.maxBalance t = t := max_eq_right (le_of_lt h1)
        have ht0 : (0 : Int) ≤ t := le_trans hst (le_of_lt h1)
        have hr := ih ⟨some p, t⟩ ht0
        rw [hm, hmax]
        refine ⟨hr.1, ?_⟩
        rw [hr.2]
        have hle : t ≤ runMax probe r t := le_runMax probe r t
        have hcond : st.maxBalance < runMax probe r t := lt_of_lt_of_le h1 hle
        rw [if_pos hcond]
        by_cases h2 : t < runMax probe r t
        · rw [if_pos h2, firstWith,
            if_neg (by rw [he]; intro hq; injection hq with hq; exact absurd hq (ne_of_lt h2))]
        · rw [if_neg h2]
          have hMt : runMax probe r t = t := le_antisymm (le_of_not_lt h2) hle
          rw [hMt, firstWith, if_pos he]
      · rw [if_neg h1]
        have hmax : max st.maxBalance t = st.maxBalance := max_eq_left (le_of_not_lt h1)
        have hr := ih st hst
        rw [hm, hmax]
        refine ⟨hr.1, ?_⟩
        rw [hr.2]
        by_cases hc : st.maxBalance < runMax probe r st.maxBalance
        · have hne : t ≠ runMax probe r st.maxBalance :=
            ne_of_lt (lt_of_le_of_lt (le_of_not_lt h1) hc)
          rw [if_pos hc, if_pos hc, firstWith,
            if_neg (by rw [he]; intro hq; injection hq with hq; exact absurd hq hne)]
        · rw [if_neg hc, if_neg hc]

/-- C4: the auto-detect search probes the pairs in algorithm-major order
ed25519, secp256k1, secp256r1 with indices 0 through 5 ascending inside each
algorithm, and its selected candidate is exactly the specification-side
selection: the first pair, in that iteration order, attaining the maximum of
the eligible totals, provided that maximum is strictly positive (so an exact
tie of non-zero totals is won by the earlier pair, with no re-ranking). -/
theorem autoDetect_order_and_tiebreak :
    searchPairs =
      [(.ed25519, 0), (.ed25519, 1), (.ed25519, 2), (.ed25519, 3), (.ed25519, 4),
       (.ed25519, 5), (.secp256k1, 0), (.secp256k1, 1), (.secp256k1, 2),
       (.secp256k1, 3), (.secp256k1, 4), (.secp256k1, 5), (.secp256r1, 0),
       (.secp256r1, 1), (.secp256r1, 2), (.secp256r1, 3), (.secp256r1, 4),
       (.secp256r1, 5)] ∧
    ∀ probe : Algo × Nat → ProbeResult,
      (autoDetect probe).foundWallet = specSelect probe := by
  refine ⟨rfl, ?_⟩
  intro probe
  have h := (detect_foldl_char probe searchPairs ⟨none, 0⟩ le_rfl).2
  simpa [autoDetect, specSelect] using h

/-- C5: when no probed pair yields a strictly positive summed total the
auto-detect search selects nothing and the import action exits with code 1
leaving the keystore untouched; and any selected pair always has a strictly
positive eligible total, so a zero-total pair is never selected. -/
theorem autoDetect_notFound_spec (probe : Algo × Nat → ProbeResult) :
    ((∀ p ∈ searchPairs, ∀ t : Int, elig probe p = some t → t ≤ 0) →
      (autoDetect probe).foundWallet = none ∧
      ∀ (seedHex : String) (fileOpt : Option String) (home : String) (store : Store),
        importAutoDetect probe seedHex fileOpt home store = (.error 1, store)) ∧
    (∀ p : Algo × Nat, (autoDetect probe).foundWallet = some p →
      ∃ t : Int, elig probe p = some t ∧ 0 < t) := by
  have hchar := (detect_foldl_char probe searchPairs ⟨none, 0⟩ le_rfl).2
  constructor
  · intro hno
    have hle : runMax probe searchPairs 0 ≤ 0 :=
      runMax_le_of probe 0 searchPairs 0 le_rfl hno
    have hfound : (autoDetect probe).foundWallet = none := by
      rw [autoDetect, hchar, if_neg (not_lt.mpr hle)]
    refine ⟨hfound, ?_⟩
    intro seedHex fileOpt home store
    simp [importAutoDetect, hfound]
  · intro p hp
    rw [autoDetect, hchar] at hp
    by_cases hM : (0 : Int) < runMax probe searchPairs 0
    · rw [if_pos hM] at hp
      exact ⟨runMax probe searchPairs 0,
        firstWith_eq_some probe (runMax probe searchPairs 0) searchPairs p hp, hM⟩
    · rw [if_neg hM] at hp
      cases hp

/-- Witness for C5: under the probe that raises a network error on every
pair, the search finds nothing and the import action exits with code 1
leaving the empty file system unchanged. -/
theorem autoDetect_notFound_witness :
    (autoDetect probeAllErr).foundWallet = none ∧
    importAutoDetect probeAllErr "seedhex" none "/home/u" emptyStore =
      (.error 1, emptyStore) := by
  have hno : ∀ p ∈ searchPairs, ∀ t : Int, elig probeAllErr p = some t → t ≤ 0 := by
    intro p _ t ht
    simp [elig, probeAllErr] at ht
  exact ⟨((autoDetect_notFound_spec probeAllErr).1 hno).1,
    ((autoDetect_notFound_spec probeAllErr).1 hno).2 "seedhex" none "/home/u" emptyStore⟩

/-- C6: a network failure on one probe is scoped to that pair and never
aborts the search: if one pair succeeds with a strictly positive total while
every other pair of the probe order raises a network error, that pair is
still returned as the match, wherever it sits in the order. -/
theorem autoDetect_resilient (probe : Algo × Nat → ProbeResult) (p : Algo × Nat)
    (t : Int) (hmem : p ∈ searchPairs) (he : elig probe p = some t) (ht : 0 < t)
    (hothers : ∀ q ∈ searchPairs, q ≠ p → probe q = .netError) :
    (autoDetect probe).foundWallet = some p := by
  have hnone : ∀ q ∈ searchPairs, q ≠ p → elig probe q = none := by
    intro q hq hne
    simp [elig, hothers q hq hne]
  have h1 : t ≤ runMax probe searchPairs 0 :=
    le_runMax_of_mem probe t searchPairs 0 p hmem he
  have h2 : runMax probe searchPairs 0 ≤ t := by
    refine runMax_le_of probe t searchPairs 0 (le_of_lt ht) ?_
    intro q hq u hu
    by_cases hqp : q = p
    · subst hqp
      rw [he] at hu
      injection hu with hu
      exact le_of_eq hu.symm
    · rw [hnone q hq hqp] at hu
      cases hu
  have hM : runMax probe searchPairs 0 = t := le_antisymm h2 h1
  have hchar := (detect_foldl_char probe searchPairs ⟨none, 0⟩ le_rfl).2
  rw [autoDetect, hchar]
  simp only [hM]
  rw [if_pos ht]
  exact firstWith_unique probe t searchPairs p hmem he hnone

/-- Witness for C6: a probe succeeding only at ed25519 index 2, with all
earlier and later pairs raising network errors, still selects ed25519
index 2. -/
theorem autoDetect_resilient_witness :
    (autoDetect probe6).foundWallet = some (.ed25519, 2) := by
  refine autoDetect_resilient probe6 (.ed25519, 2) 5 (by decide) (by decide)
    (by decide) ?_
  decide

/-- C10: the auto-detect import writes the keystore only after a winning
candidate exists: when the search finds nothing the action exits with
code 1 and the file system is returned exactly as given, and any run that
changed the file system had selected a winner. -/
theorem importAutoDetect_noWriteOnFailure (probe : Algo × Nat → ProbeResult)
    (seedHex : String) (fileOpt : Option String) (home : String) (store : Store) :
    ((autoDetect probe).foundWallet = none →
      importAutoDetect probe seedHex fileOpt home store = (.error 1, store)) ∧
    (∀ st' : Store, (importAutoDetect probe seedHex fileOpt home store).2 = st' →
      st' ≠ store → ∃ pr : Algo × Nat, (autoDetect probe).foundWallet = some pr) := by
  constructor
  · intro h
    simp [importAutoDetect, h]
  · intro st' h hne
    cases hf : (autoDetect probe).foundWallet with
    | none =>
      exfalso
      apply hne
      rw [← h]
      simp [importAutoDetect, hf]
    | some pr => exact ⟨pr, rfl⟩

/-- Witness for C10: with the all-errors probe the import action leaves a
concrete file system unchanged and exits with code 1. -/
theorem importAutoDetect_noWriteOnFailure_witness :
    importAutoDetect probeAllErr "s" (some "/tmp/wallet.json") "/h" emptyStore =
      (.error 1, emptyStore) :=
  (importAutoDetect_noWriteOnFailure probeAllErr "s" (some "/tmp/wallet.json") "/h"
    emptyStore).1 (by decide)

/-- Counterexample for C8: a scan invoked with an algos option that parses
to the empty algorithm list does not fail: it completes successfully having
probed nothing and found nothing, so the claimed fail-fast error does not
happen. -/
theorem scan_emptyAlgos_cex :
    scanBalancesRun "ed25519" emptyAlgoOpts scanProbeErr = .ok ([], []) ∧
    scanBalancesRun "ed25519" emptyAlgoOpts scanProbeErr ≠ .error 1 := by
  refine ⟨rfl, ?_⟩
  intro h
  exact Except.noConfusion h

/-- C8 (amended): with a valid index range and an algos option that parses
to the empty algorithm list, the scan performs no network probes and
silently completes with success and an empty result sequence instead of
failing fast. -/
theorem scan_emptyAlgos_amended (defaultAlgo : String) (o : ScanOpts)
    (probe : String → Int → ScanProbe) (h0 : 0 ≤ o.start) (h1 : o.start ≤ o.tEnd)
    (ha : o.algosOpt ≠ "") (he : parseAlgosList o.algosOpt = []) :
    scanBalancesRun defaultAlgo o probe = .ok ([], []) := by
  rw [scanBalancesRun, if_neg (by omega : ¬(o.start < 0 ∨ o.tEnd < o.start))]
  have hb : (o.algosOpt != "") = true := by simp [ha]
  simp [hb, he]

/-- Witness for C8: the amended statement evaluated at a concrete option
string consisting of a lone comma. -/
theorem scan_emptyAlgos_amended_witness :
    scanBalancesRun "secp256k1" ⟨",", 0, 5, true⟩ scanProbeErr = .ok ([], []) :=
  scan_emptyAlgos_amended "secp256k1" ⟨",", 0, 5, true⟩ scanProbeErr (by decide)
    (by decide) (by decide) rfl

/-- C9: the getKeyfile helper honours a per-invocation keyfile override and
every wallet command that loads through it sees the overridden file, but
wallet:scan-balances loads through the fixed default path: on a file system
whose only keystore sits at the override path, the scan sees no wallet and
its seed-resolution step exits with code 1, although the identical override
given to the getKeyfile-based load finds the wallet. -/
theorem scan_keyfile_ignored :
    getKeyfile "/home/u" (some "/alt/wallet.json") = "/alt/wallet.json" ∧
    commandLoadedWallet "/home/u" (some "/alt/wallet.json") store9 = some wSeedEx ∧
    scanLoadedWallet "/home/u" (some "/alt/wallet.json") store9 = none ∧
    scanSeedStep (scanLoadedWallet "/home/u" (some "/alt/wallet.json") store9) =
      .error 1 :=
  ⟨rfl, rfl, rfl, rfl⟩

end KeetaCLI
